import Mathlib

set_option linter.unusedVariables false

/- Shallow embedding of szip.go: a signed, tamper-evident zip container
   tool.  Bytes are modelled as Nat and byte buffers as List Nat.  External
   library primitives (SHA-1, DEFLATE, zip, XML, PEM/PKCS#7) are parameters
   of the model, collected in the `Codecs` structure; the repository's own
   logic — directory traversal, framing, offset arithmetic, the ordering of
   hash checks and writes — is translated directly from the source. -/

/-- Outcome of a Go function call: a normal return value, an error return,
or a runtime panic (e.g. slice bounds out of range). -/
inductive XOutcome (α : Type) where
  | ok (a : α)
  | error (msg : String)
  | panic
deriving DecidableEq

/-- ASCII lower-casing, character by character. -/
def strLower (s : String) : String := String.mk (s.data.map Char.toLower)

/-- strings.EqualFold, restricted to ASCII case folding (all names and hex
digests in this program are ASCII). -/
def eqFold (a b : String) : Prop := strLower a = strLower b

instance (a b : String) : Decidable (eqFold a b) := String.decEq (strLower a) (strLower b)

/-- binary.LittleEndian.PutUint32 applied to uint32(n): the Go conversion
truncates to 32 bits, which the per-byte arithmetic below reproduces for
every n. -/
def putUint32LE (n : Nat) : List Nat :=
  [n % 256, n / 256 % 256, n / 65536 % 256, n / 16777216 % 256]

/-- binary.LittleEndian.Uint32 of the first four bytes. -/
def leUint32 : List Nat → Nat
  | a :: b :: c :: d :: _ => a + 256 * b + 65536 * c + 16777216 * d
  | _ => 0

/-- metaStruct from szip.go: one manifest record per file (path, original
size, modification time, SHA-1 digest as a hex string). -/
structure MetaStruct where
  name : String
  size : Nat
  mtime : Nat
  sha1 : String
deriving DecidableEq

/-- The Go zero value of metaStruct, as produced by `var v metaStruct`. -/
def zeroMeta : MetaStruct := ⟨"", 0, 0, ""⟩

/-- One entry of the zip archive: a directory marker (name ending in "/")
or a file together with its uncompressed content bytes. -/
inductive ZEntry where
  | dir (name : String)
  | file (name : String) (content : List Nat)
deriving DecidableEq

/-- A source tree handed to the packer.  A file carries `none` as content
when it cannot be opened or read, mirroring an os.Open/io failure. -/
inductive FSTree where
  | file (name : String) (content : Option (List Nat)) (mtime : Nat)
  | dir (name : String) (children : List FSTree)

/-- One call to xml.Decoder.Decode: a well-formed record, a failed decode
(carrying whatever partial record the decoder left in `v`; encoding/xml
returns a non-EOF error, e.g. a SyntaxError, for a truncated element), or a
clean end of the input (io.EOF). -/
inductive DecodeResult where
  | ok (v : MetaStruct)
  | errp (v : MetaStruct)
  | eof
deriving DecidableEq

/-- A parsed pkcs7.PKCS7 value: its embedded content and whether
p7.Verify() succeeds on it. -/
structure P7 where
  content : List Nat
  valid : Bool

/-- The external primitives used by szip.go, kept abstract: the model's
theorems assume only the inverse properties the respective libraries
guarantee. -/
structure Codecs where
  sha1Hex : List Nat → String
  deflate : List Nat → List Nat
  inflate : List Nat → Option (List Nat)
  zipWrite : List ZEntry → List Nat
  zipRead : List Nat → Option (List ZEntry)
  xmlEncode : List MetaStruct → List Nat
  xmlDecode : List Nat → List DecodeResult
  pemDecode : List Nat → Option (List Nat)
  pkcs7Parse : List Nat → Option P7
  sign : List Nat → Option (List Nat)

/-- Observable filesystem-facing steps of the extraction loop, in the order
they happen. -/
inductive Event where
  | mkdir (name : String)
  | hashComputed (name : String)
  | validated (name : String)
  | written (name : String) (content : List Nat)
deriving DecidableEq

/- ---------------- path handling (path/filepath) ---------------- -/

/-- Merge runs of the separator character into one, as filepath.Clean does
(when the first two characters are both the separator, the first is
dropped). -/
def collapseSep (sep : Char) : List Char → List Char
  | [] => []
  | [c] => [c]
  | a :: b :: rest =>
    if a = sep ∧ b = sep then collapseSep sep (b :: rest)
    else a :: collapseSep sep (b :: rest)

/-- Drop one trailing separator (kept when it is the whole path), as
filepath.Clean does. -/
def dropTrailingSep (sep : Char) (l : List Char) : List Char :=
  match l.getLast? with
  | some c => if c = sep ∧ 1 < l.length then l.dropLast else l
  | none => l

/-- filepath.Clean restricted to separator normalisation — the inputs in
this program never contain "." or ".." components.  On a backslash host,
forward slashes are also separators and are rewritten to the host
separator; runs of separators collapse; a trailing separator is dropped;
the empty path becomes ".". -/
def fpClean (sep : Char) (s : String) : String :=
  let cs := s.data.map (fun c => if sep = '\\' ∧ c = '/' then '\\' else c)
  let cs := dropTrailingSep sep (collapseSep sep cs)
  if cs.isEmpty then "." else String.mk cs

/-- filepath.Join for the two-argument use in the source (empty components
are skipped before Clean). -/
def fpJoin (sep : Char) (a b : String) : String :=
  if a = "" then (if b = "" then "" else fpClean sep b)
  else fpClean sep (a ++ String.singleton sep ++ b)

/-- filepath.ToSlash: replace the host separator with a forward slash. -/
def toSlash (sep : Char) (s : String) : String :=
  String.mk (s.data.map (fun c => if c = sep then '/' else c))

/- ---------------- packaging (zipFunc / addData / createSZP) ---------------- -/

/-- The zip entries and manifest records accumulated so far.  In the source
these are the global zip.Writer and the global xml.Encoder writing into
metaBuf; here they are threaded explicitly. -/
structure PackAcc where
  zips : List ZEntry
  metas : List MetaStruct
deriving DecidableEq

/-- addData from szip.go, over a modelled directory listing.  For a
directory it writes a slash-normalised marker entry and descends — note
that the recursive call's error is discarded (szip.go line 93).  For a file
it writes the zip entry under filepath.Join(zPath, name) (no ToSlash, szip.go
line 107), then appends the manifest record with the SHA-1 of the file's
bytes.  An unreadable file aborts the current invocation with the open
error. -/
def addList (sep : Char) (sha : List Nat → String) :
    String → List FSTree → PackAcc → PackAcc × Option String
  | _, [], acc => (acc, none)
  | zPath, .dir name children :: rest, acc =>
    addList sep sha zPath rest
      (addList sep sha (toSlash sep (fpJoin sep zPath name) ++ "/") children
        ⟨acc.zips ++ [ZEntry.dir (toSlash sep (fpJoin sep zPath name) ++ "/")],
          acc.metas⟩).1
  | _, .file name none _ :: _, acc => (acc, some ("cannot open " ++ name))
  | zPath, .file name (some content) mtime :: rest, acc =>
    addList sep sha zPath rest
      ⟨acc.zips ++ [ZEntry.file (fpJoin sep zPath name) content],
        acc.metas ++ [⟨fpJoin sep zPath name, content.length, mtime, sha content⟩]⟩
termination_by _ l _ => sizeOf l
decreasing_by
  all_goals simp_wf
  all_goals omega

/-- The frame built by createSZP (szip.go lines 167 and 184-198): the
4-byte little-endian length of the DEFLATE-compressed manifest, then the
compressed manifest, then the raw archive bytes. -/
def frameM (c : Codecs) (metaBytes z : List Nat) : List Nat :=
  let meta := c.deflate metaBytes
  putUint32LE meta.length ++ meta ++ z

/-- An in-memory file system: file name to content bytes. -/
abbrev Disk := List (String × List Nat)

def diskRead (d : Disk) (n : String) : Option (List Nat) :=
  (d.find? (fun p => p.1 = n)).map (fun p => p.2)

def diskSet (d : Disk) (n : String) (v : List Nat) : Disk :=
  (n, v) :: d.filter (fun p => ¬ (p.1 = n))

def diskRemove (d : Disk) (n : String) : Disk :=
  d.filter (fun p => ¬ (p.1 = n))

/-- createSZP from szip.go: compress the manifest buffer, read the scratch
zip back from disk, create the container at its final name `name ++ ".szp"`
(os.Create leaves an empty file, szip.go line 179), build the frame, sign
it, and only then write the envelope and remove the scratch zip.  A signing
failure therefore returns after the empty container file was created. -/
def createSZPM (c : Codecs) (name : String) (metaBytes : List Nat) (disk : Disk) :
    Disk × Option String :=
  let zname := name ++ ".zip"
  let szpname := name ++ ".szp"
  let meta := c.deflate metaBytes
  match diskRead disk zname with
  | none => (disk, some "cannot open scratch zip")
  | some z =>
    let disk1 := diskSet disk szpname []
    let buf := putUint32LE meta.length ++ meta ++ z
    match c.sign buf with
    | none => (disk1, some "signing error")
    | some d =>
      let disk2 := diskSet disk1 szpname d
      (diskRemove disk2 zname, none)

/-- zipFunc from szip.go: create the scratch zip, run addData from the data
root, close the writer (which makes the scratch zip hold the serialized
entries), then hand over to createSZP. -/
def zipFuncM (c : Codecs) (sep : Char) (name : String) (tree : List FSTree)
    (disk : Disk) : Disk × Option String :=
  let disk1 := diskSet disk (name ++ ".zip") []
  match addList sep c.sha1Hex "" tree ⟨[], []⟩ with
  | (_, some e) => (disk1, some e)
  | (acc, none) =>
    let disk2 := diskSet disk1 (name ++ ".zip") (c.zipWrite acc.zips)
    createSZPM c name (c.xmlEncode acc.metas) disk2

/- ---------------- extraction (verifySign / readSZP / extract) ---------------- -/

/-- The frame-parsing core of readSZP (szip.go lines 221-231).  Go slicing
`data[a:b]` panics when a bound exceeds the slice, so an oversized length
prefix is a panic, not an error return; buffers are modelled with capacity
equal to length. -/
def unframeM (c : Codecs) (data : List Nat) : XOutcome (List Nat × List Nat) :=
  if data.length < 4 then XOutcome.panic
  else
    let L := leUint32 (data.take 4)
    if data.length < 4 + L then XOutcome.panic
    else
      match c.inflate ((data.drop 4).take L) with
      | none => XOutcome.error "inflate error"
      | some m => XOutcome.ok (m, data.drop (4 + L))

/-- readSZP (szip.go lines 212-232): PEM-decode, parse the PKCS#7
envelope, then split and inflate its content. -/
def readSZPM (c : Codecs) (data : List Nat) : XOutcome (List Nat × List Nat) :=
  match c.pemDecode data with
  | none => XOutcome.error "failed to parse PEM block"
  | some pbytes =>
    match c.pkcs7Parse pbytes with
    | none => XOutcome.error "pkcs7 parse error"
    | some p7 => unframeM c p7.content

/-- verifySign (szip.go lines 387-419).  `hash` is the expected certificate
fingerprint supplied by the caller ("" when absent).  The digest it is
compared against is SHA-1 of `szp` — the raw, still PEM-encoded container
bytes as read from disk — and a mismatch returns before p7.Verify() is
reached. -/
def verifySignM (c : Codecs) (hash : String) (szp : List Nat) : XOutcome (List Nat) :=
  match c.pemDecode szp with
  | none => XOutcome.error "failed to parse PEM block"
  | some pbytes =>
    match c.pkcs7Parse pbytes with
    | none => XOutcome.error "pkcs7 parse error"
    | some p7 =>
      if hash ≠ "" then
        if eqFold (c.sha1Hex szp) hash then
          if p7.valid then XOutcome.ok szp else XOutcome.error "verification error"
        else XOutcome.error "Hash of the certificate does not match the specified"
      else
        if p7.valid then XOutcome.ok szp else XOutcome.error "verification error"

/-- The manifest-decoding loop of extract (szip.go lines 263-270): only
io.EOF terminates it; any other Decode outcome appends the current value of
`v` — the zero record or a partially decoded one — and continues. -/
def decodeLoop : List DecodeResult → List MetaStruct
  | [] => []
  | DecodeResult.eof :: _ => []
  | DecodeResult.ok v :: rest => v :: decodeLoop rest
  | DecodeResult.errp v :: rest => v :: decodeLoop rest

/-- The manifest lookup inside extract's materialization loop (szip.go
lines 283-291): the first record whose name matches the entry name
case-insensitively. -/
def findFold (metas : List MetaStruct) (n : String) : Option MetaStruct :=
  match metas with
  | [] => none
  | v :: rest => if eqFold v.name n then some v else findFold rest n

/-- The materialization loop of extract (szip.go lines 272-309).  For a
directory entry: MkdirAll.  For a file entry: hash the decompressed bytes,
look for a case-insensitively matching manifest record; a digest mismatch
aborts with the "Hash of ... does not match" error before the file is
created; otherwise (also when no record matches) the file is created and
written. -/
def extractLoop (sha : List Nat → String) (metas : List MetaStruct) :
    List ZEntry → List Event × Option String
  | [] => ([], none)
  | ZEntry.dir name :: rest =>
    let r := extractLoop sha metas rest
    (Event.mkdir name :: r.1, r.2)
  | ZEntry.file name content :: rest =>
    let digest := sha content
    match findFold metas name with
    | some v =>
      if eqFold v.sha1 digest then
        let r := extractLoop sha metas rest
        (Event.hashComputed name :: Event.validated name ::
          Event.written name content :: r.1, r.2)
      else
        ([Event.hashComputed name], some ("Hash of " ++ name ++ " does not match"))
    | none =>
      let r := extractLoop sha metas rest
      (Event.hashComputed name :: Event.written name content :: r.1, r.2)

/-- Result of a whole extraction run: a panic, a failure before the
materialization loop started, or a run of the loop with its event trace and
its final error (none on full success). -/
inductive XResult where
  | panic
  | fail (msg : String)
  | run (tr : List Event) (err : Option String)
deriving DecidableEq

/-- extract from szip.go (lines 234-313): verify the signature, re-parse
and unframe the container, write the archive bytes to a scratch zip and
open it, decode the manifest records, then run the materialization loop. -/
def extractM (c : Codecs) (hash : String) (szpBytes : List Nat) : XResult :=
  match verifySignM c hash szpBytes with
  | XOutcome.panic => XResult.panic
  | XOutcome.error e => XResult.fail e
  | XOutcome.ok szp =>
    match readSZPM c szp with
    | XOutcome.panic => XResult.panic
    | XOutcome.error e => XResult.fail e
    | XOutcome.ok (meta, z) =>
      match c.zipRead z with
      | none => XResult.fail "cannot open zip"
      | some entries =>
        let metaUnion := decodeLoop (c.xmlDecode meta)
        let r := extractLoop c.sha1Hex metaUnion entries
        XResult.run r.1 r.2

/-- packBytes: the container bytes produced by zipFunc followed by
createSZP, with the round trip through the scratch zip file elided (the
bytes written are read back unchanged). -/
def packBytes (c : Codecs) (sep : Char) (tree : List FSTree) : XOutcome (List Nat) :=
  match addList sep c.sha1Hex "" tree ⟨[], []⟩ with
  | (_, some e) => XOutcome.error e
  | (acc, none) =>
    match c.sign (frameM c (c.xmlEncode acc.metas) (c.zipWrite acc.zips)) with
    | none => XOutcome.error "signing error"
    | some env => XOutcome.ok env

/- ---------------- reference functions for the success path ---------------- -/

/-- The files of a tree in traversal order, each with the path addData
emits for it: (path, bytes, mtime). -/
def specFiles (sep : Char) : String → List FSTree → List (String × List Nat × Nat)
  | _, [] => []
  | zPath, .dir name children :: rest =>
    specFiles sep (toSlash sep (fpJoin sep zPath name) ++ "/") children ++
      specFiles sep zPath rest
  | zPath, .file _ none _ :: rest => specFiles sep zPath rest
  | zPath, .file name (some content) mtime :: rest =>
    (fpJoin sep zPath name, content, mtime) :: specFiles sep zPath rest
termination_by _ l => sizeOf l
decreasing_by
  all_goals simp_wf
  all_goals omega

/-- The zip entries of a tree in traversal order: a marker per directory
(interleaved before its children) and one entry per readable file. -/
def zipSpec (sep : Char) : String → List FSTree → List ZEntry
  | _, [] => []
  | zPath, .dir name children :: rest =>
    ZEntry.dir (toSlash sep (fpJoin sep zPath name) ++ "/") ::
      (zipSpec sep (toSlash sep (fpJoin sep zPath name) ++ "/") children ++
        zipSpec sep zPath rest)
  | zPath, .file _ none _ :: rest => zipSpec sep zPath rest
  | zPath, .file name (some content) _ :: rest =>
    ZEntry.file (fpJoin sep zPath name) content :: zipSpec sep zPath rest
termination_by _ l => sizeOf l
decreasing_by
  all_goals simp_wf
  all_goals omega

/-- The manifest record addData derives from one visited file. -/
def mkMeta (sha : List Nat → String) (t : String × List Nat × Nat) : MetaStruct :=
  ⟨t.1, t.2.1.length, t.2.2, sha t.2.1⟩

/-- Whether every file of the tree can be opened and read. -/
def readableL : List FSTree → Bool
  | [] => true
  | .dir _ children :: rest => readableL children && readableL rest
  | .file _ none _ :: _ => false
  | .file _ (some _) _ :: rest => readableL rest
termination_by l => sizeOf l
decreasing_by
  all_goals simp_wf
  all_goals omega

/-- A zip entry passes the manifest check: it is a directory, or no record
matches its name, or the first matching record carries its digest. -/
def entryPasses (sha : List Nat → String) (metas : List MetaStruct) : ZEntry → Bool
  | ZEntry.dir _ => true
  | ZEntry.file n b =>
    match findFold metas n with
    | some v => decide (eqFold v.sha1 (sha b))
    | none => true

/-- The event trace of a materialization run in which every entry passes. -/
def okTrace (metas : List MetaStruct) : List ZEntry → List Event
  | [] => []
  | ZEntry.dir name :: rest => Event.mkdir name :: okTrace metas rest
  | ZEntry.file name content :: rest =>
    match findFold metas name with
    | some _ => Event.hashComputed name :: Event.validated name ::
        Event.written name content :: okTrace metas rest
    | none => Event.hashComputed name :: Event.written name content ::
        okTrace metas rest

/-- The files a trace wrote, in order. -/
def writtenFiles (tr : List Event) : List (String × List Nat) :=
  tr.filterMap (fun e => match e with
    | Event.written n b => some (n, b)
    | _ => none)

/-- Modelled from the spec, for comparison with verifySignM (claim C4's
words): identical to verifySign except that the fingerprint digest is
computed over the PEM-DECODED bytes of the envelope rather than over the
raw container bytes. -/
def verifySignClaimC4 (c : Codecs) (hash : String) (szp : List Nat) :
    XOutcome (List Nat) :=
  match c.pemDecode szp with
  | none => XOutcome.error "failed to parse PEM block"
  | some pbytes =>
    match c.pkcs7Parse pbytes with
    | none => XOutcome.error "pkcs7 parse error"
    | some p7 =>
      if hash ≠ "" then
        if eqFold (c.sha1Hex pbytes) hash then
          if p7.valid then XOutcome.ok szp else XOutcome.error "verification error"
        else XOutcome.error "Hash of the certificate does not match the specified"
      else
        if p7.valid then XOutcome.ok szp else XOutcome.error "verification error"

/- ---------------- basic lemmas ---------------- -/

lemma putUint32LE_length (n : Nat) : (putUint32LE n).length = 4 := rfl

lemma leUint32_putUint32LE (n : Nat) (h : n < 4294967296) :
    leUint32 (putUint32LE n) = n := by
  simp only [putUint32LE, leUint32]
  omega

lemma eqFold_refl (a : String) : eqFold a a := rfl

lemma eqFold_symm {a b : String} (h : eqFold a b) : eqFold b a := h.symm

lemma eqFold_trans {a b c : String} (h1 : eqFold a b) (h2 : eqFold b c) :
    eqFold a c := h1.trans h2

/-- The key framing fact: parsing the frame recovers the compressed
manifest segment and the archive bytes, provided the compressed manifest is
shorter than 2^32 bytes (otherwise the uint32 length prefix truncates). -/
lemma unframe_frame (c : Codecs) (m z : List Nat)
    (hinf : c.inflate (c.deflate m) = some m)
    (hlen : (c.deflate m).length < 4294967296) :
    unframeM c (frameM c m z) = XOutcome.ok (m, z) := by
  have hassoc : frameM c m z
      = putUint32LE (c.deflate m).length ++ ((c.deflate m) ++ z) := by
    simp [frameM, List.append_assoc]
  have hdlen : (frameM c m z).length = 4 + ((c.deflate m).length + z.length) := by
    rw [hassoc]
    simp [putUint32LE]
    omega
  have htake : (frameM c m z).take 4 = putUint32LE (c.deflate m).length := by
    rw [hassoc]
    exact List.take_left' rfl
  have hL : leUint32 ((frameM c m z).take 4) = (c.deflate m).length := by
    rw [htake, leUint32_putUint32LE _ hlen]
  have hdrop4 : (frameM c m z).drop 4 = (c.deflate m) ++ z := by
    rw [hassoc]
    exact List.drop_left' rfl
  have hseg : ((frameM c m z).drop 4).take (c.deflate m).length = c.deflate m := by
    rw [hdrop4]
    exact List.take_left _ _
  have hrest : (frameM c m z).drop (4 + (c.deflate m).length) = z := by
    rw [← List.drop_drop, hdrop4]
    exact List.drop_left _ _
  simp only [unframeM, hL, hdlen]
  rw [if_neg (by omega), if_neg (by omega), hseg, hinf]
  simp [hrest]

/-- With pairwise case-insensitively distinct record names, the lookup
finds exactly the record of the name it is given. -/
lemma findFold_some {metas : List MetaStruct} {n : String} {v : MetaStruct}
    (hpw : metas.Pairwise (fun a b => ¬ eqFold a.name b.name))
    (hv : v ∈ metas) (hn : eqFold v.name n) :
    findFold metas n = some v := by
  induction metas with
  | nil => cases hv
  | cons w rest ih =>
    rcases List.pairwise_cons.mp hpw with ⟨hw, hrest⟩
    rcases List.mem_cons.mp hv with h | h
    · subst h
      simp [findFold, hn]
    · have hne : ¬ eqFold w.name n := by
        intro he
        exact hw v h (eqFold_trans he (eqFold_symm hn))
      simp only [findFold, if_neg hne]
      exact ih hrest h

/-- A materialization run in which every entry passes its check writes
every file and reports no error. -/
lemma extractLoop_ok (sha : List Nat → String) (metas : List MetaStruct)
    (entries : List ZEntry)
    (hp : ∀ e ∈ entries, entryPasses sha metas e = true) :
    extractLoop sha metas entries = (okTrace metas entries, none) := by
  induction entries with
  | nil => rfl
  | cons e rest ih =>
    have he := hp e (List.mem_cons_self e rest)
    have hrest := ih (fun x hx => hp x (List.mem_cons_of_mem _ hx))
    cases e with
    | dir n => simp [extractLoop, okTrace, hrest]
    | file n b =>
      cases hf : findFold metas n with
      | none => simp [extractLoop, okTrace, hf, hrest]
      | some v =>
        have hvs : eqFold v.sha1 (sha b) := by
          simp [entryPasses, hf] at he
          exact he
        simp [extractLoop, okTrace, hf, hvs, hrest]

/-- The files among a list of zip entries, in order. -/
def entryFilesZ (l : List ZEntry) : List (String × List Nat) :=
  l.filterMap (fun e => match e with
    | ZEntry.file n b => some (n, b)
    | _ => none)

lemma writtenFiles_okTrace (metas : List MetaStruct) (entries : List ZEntry) :
    writtenFiles (okTrace metas entries) = entryFilesZ entries := by
  induction entries with
  | nil => rfl
  | cons e rest ih =>
    cases e with
    | dir n => simpa [okTrace, writtenFiles, entryFilesZ] using ih
    | file n b =>
      cases hf : findFold metas n with
      | none => simpa [okTrace, writtenFiles, entryFilesZ, hf] using ih
      | some v => simpa [okTrace, writtenFiles, entryFilesZ, hf] using ih

lemma decodeLoop_ok_append (vs : List MetaStruct) (rest : List DecodeResult) :
    decodeLoop (vs.map DecodeResult.ok ++ rest) = vs ++ decodeLoop rest := by
  induction vs with
  | nil => rfl
  | cons v t ih => simp [decodeLoop, ih]

lemma decodeLoop_clean (vs : List MetaStruct) :
    decodeLoop (vs.map DecodeResult.ok ++ [DecodeResult.eof]) = vs := by
  rw [decodeLoop_ok_append]
  simp [decodeLoop]

/-- addData on a fully readable tree: it reports no error and appends
exactly the reference zip entries and manifest records. -/
lemma addList_ok (sep : Char) (sha : List Nat → String) (zPath : String)
    (ns : List FSTree) (acc : PackAcc) (hr : readableL ns = true) :
    addList sep sha zPath ns acc =
      (⟨acc.zips ++ zipSpec sep zPath ns,
        acc.metas ++ (specFiles sep zPath ns).map (mkMeta sha)⟩, none) := by
  induction zPath, ns, acc using addList.induct sep sha with
  | case1 zPath acc => simp [addList, zipSpec, specFiles]
  | case2 zPath name children rest acc ih1 ih2 =>
    simp only [readableL, Bool.and_eq_true] at hr
    simp only [addList]
    rw [ih2 hr.2, ih1 hr.1]
    simp [zipSpec, specFiles, mkMeta, List.append_assoc]
  | case3 zPath name mtime tail acc =>
    simp [readableL] at hr
  | case4 zPath name content mtime rest acc ih =>
    simp only [readableL] at hr
    simp only [addList]
    rw [ih hr]
    simp [zipSpec, specFiles, mkMeta, List.append_assoc]

lemma entryFilesZ_nil : entryFilesZ [] = [] := rfl

lemma entryFilesZ_cons_dir (n : String) (l : List ZEntry) :
    entryFilesZ (ZEntry.dir n :: l) = entryFilesZ l := rfl

lemma entryFilesZ_cons_file (n : String) (b : List Nat) (l : List ZEntry) :
    entryFilesZ (ZEntry.file n b :: l) = (n, b) :: entryFilesZ l := rfl

lemma entryFilesZ_append (l1 l2 : List ZEntry) :
    entryFilesZ (l1 ++ l2) = entryFilesZ l1 ++ entryFilesZ l2 := by
  simp [entryFilesZ, List.filterMap_append]

/-- The files among the reference zip entries are exactly the reference
files. -/
lemma entryFilesZ_zipSpec (sep : Char) (zPath : String) (ns : List FSTree) :
    entryFilesZ (zipSpec sep zPath ns) =
      (specFiles sep zPath ns).map (fun t => (t.1, t.2.1)) := by
  induction zPath, ns using zipSpec.induct sep with
  | case1 zPath => simp [zipSpec, specFiles, entryFilesZ]
  | case2 zPath name children rest ih1 ih2 =>
    simp only [zipSpec, specFiles, entryFilesZ_cons_dir, entryFilesZ_append,
      List.map_append, ih1, ih2]
  | case3 zPath name mtime tail ih =>
    simp only [zipSpec, specFiles, ih]
  | case4 zPath name content mtime rest ih =>
    simp only [zipSpec, specFiles, entryFilesZ_cons_file, List.map_cons, ih]

/-- Every file entry of the reference zip stream corresponds to a visited
file with the same path and bytes. -/
lemma zipSpec_file_mem (sep : Char) (zPath : String) (ns : List FSTree)
    (n : String) (b : List Nat)
    (he : ZEntry.file n b ∈ zipSpec sep zPath ns) :
    ∃ m, (n, b, m) ∈ specFiles sep zPath ns := by
  revert he
  induction zPath, ns using zipSpec.induct sep with
  | case1 zPath =>
    intro he
    simp [zipSpec] at he
  | case2 zPath name children rest ih1 ih2 =>
    intro he
    simp only [zipSpec, List.mem_cons, List.mem_append] at he
    rcases he with h | h | h
    · simp at h
    · obtain ⟨m, hm⟩ := ih1 h
      exact ⟨m, by simp only [specFiles, List.mem_append]; exact Or.inl hm⟩
    · obtain ⟨m, hm⟩ := ih2 h
      exact ⟨m, by simp only [specFiles, List.mem_append]; exact Or.inr hm⟩
  | case3 zPath name mtime tail ih =>
    intro he
    simp only [zipSpec] at he
    obtain ⟨m, hm⟩ := ih he
    exact ⟨m, by simp only [specFiles]; exact hm⟩
  | case4 zPath name content mtime rest ih =>
    intro he
    simp only [zipSpec, List.mem_cons] at he
    rcases he with h | h
    · injection h with h1 h2
      exact ⟨mtime, by simp only [specFiles, h1, h2, List.mem_cons]; exact Or.inl trivial⟩
    · obtain ⟨m, hm⟩ := ih h
      exact ⟨m, by simp only [specFiles, List.mem_cons]; exact Or.inr hm⟩

/-- When the visited file paths are pairwise distinct under case folding,
every reference zip entry passes the manifest check against the reference
manifest. -/
lemma zipSpec_entryPasses (sep : Char) (sha : List Nat → String)
    (zPath : String) (ns : List FSTree)
    (hpw : ((specFiles sep zPath ns).map (fun t => t.1)).Pairwise
      (fun a b => ¬ eqFold a b))
    (e : ZEntry) (he : e ∈ zipSpec sep zPath ns) :
    entryPasses sha ((specFiles sep zPath ns).map (mkMeta sha)) e = true := by
  cases e with
  | dir n => rfl
  | file n b =>
    obtain ⟨m, hm⟩ := zipSpec_file_mem sep zPath ns n b he
    have hv : mkMeta sha (n, b, m) ∈ (specFiles sep zPath ns).map (mkMeta sha) :=
      List.mem_map_of_mem _ hm
    have hpw' : ((specFiles sep zPath ns).map (mkMeta sha)).Pairwise
        (fun a b => ¬ eqFold a.name b.name) := by
      rw [List.pairwise_map]
      rw [List.pairwise_map] at hpw
      exact hpw
    have hf : findFold ((specFiles sep zPath ns).map (mkMeta sha)) n
        = some (mkMeta sha (n, b, m)) :=
      findFold_some hpw' hv (eqFold_refl n)
    simp [entryPasses, hf, mkMeta, eqFold_refl]

/-- Running the materialization loop over passing entries followed by a
file whose first matching record carries a different digest: the loop
aborts with the "Hash of ..." error right after hashing that file, before
writing it. -/
lemma extractLoop_fail (sha : List Nat → String) (metas : List MetaStruct)
    (pre : List ZEntry) (hp : ∀ e ∈ pre, entryPasses sha metas e = true)
    (n : String) (b : List Nat) (v : MetaStruct)
    (hf : findFold metas n = some v) (hbad : ¬ eqFold v.sha1 (sha b))
    (rest : List ZEntry) :
    extractLoop sha metas (pre ++ ZEntry.file n b :: rest) =
      (okTrace metas pre ++ [Event.hashComputed n],
        some ("Hash of " ++ n ++ " does not match")) := by
  induction pre with
  | nil => simp [extractLoop, hf, hbad, okTrace]
  | cons e t ih =>
    have he := hp e (List.mem_cons_self e t)
    have iht := ih (fun x hx => hp x (List.mem_cons_of_mem _ hx))
    cases e with
    | dir m => simp [extractLoop, okTrace, iht]
    | file m bb =>
      cases hfm : findFold metas m with
      | none => simp [extractLoop, okTrace, hfm, iht]
      | some w =>
        have hws : eqFold w.sha1 (sha bb) := by
          simp [entryPasses, hfm] at he
          exact he
        simp [extractLoop, okTrace, hfm, hws, iht]

lemma mem_entryFilesZ (l : List ZEntry) (n : String) (b : List Nat)
    (h : (n, b) ∈ entryFilesZ l) : ZEntry.file n b ∈ l := by
  induction l with
  | nil => simp [entryFilesZ] at h
  | cons e t ih =>
    cases e with
    | dir m =>
      rw [entryFilesZ_cons_dir] at h
      exact List.mem_cons_of_mem _ (ih h)
    | file m bb =>
      rw [entryFilesZ_cons_file] at h
      rcases List.mem_cons.mp h with h1 | h1
      · injection h1 with h2 h3
        rw [h2, h3]
        exact List.mem_cons_self _ _
      · exact List.mem_cons_of_mem _ (ih h1)

lemma mem_writtenFiles (tr : List Event) (n : String) (b : List Nat)
    (h : Event.written n b ∈ tr) : (n, b) ∈ writtenFiles tr := by
  unfold writtenFiles
  exact List.mem_filterMap.mpr ⟨Event.written n b, h, rfl⟩

/-- Splitting a cons list along an append with a distinguished middle
element. -/
lemma cons_split {α : Type} {x b : α} {xs t1 t2 : List α}
    (h : x :: xs = t1 ++ b :: t2) :
    (t1 = [] ∧ x = b ∧ xs = t2) ∨ ∃ t0, t1 = x :: t0 ∧ xs = t0 ++ b :: t2 := by
  cases t1 with
  | nil =>
    simp only [List.nil_append, List.cons.injEq] at h
    exact Or.inl ⟨rfl, h.1, h.2⟩
  | cons y ys =>
    simp only [List.cons_append, List.cons.injEq] at h
    exact Or.inr ⟨ys, by rw [h.1], h.2⟩

/-- In any materialization trace, a `written` event is always preceded by
the hashing of that entry, and — whenever some manifest record matches the
name — by its validation. -/
lemma written_after_validate (sha : List Nat → String)
    (metas : List MetaStruct) (entries : List ZEntry)
    (t1 t2 : List Event) (n : String) (b : List Nat)
    (h : (extractLoop sha metas entries).1 = t1 ++ Event.written n b :: t2) :
    Event.hashComputed n ∈ t1 ∧
      (∀ v, findFold metas n = some v → Event.validated n ∈ t1) := by
  induction entries generalizing t1 t2 with
  | nil =>
    simp [extractLoop] at h
  | cons e rest ih =>
    cases e with
    | dir m =>
      simp only [extractLoop] at h
      rcases cons_split h with ⟨h1, h2, h3⟩ | ⟨t0, h1, h2⟩
      · exact absurd h2 (by simp)
      · obtain ⟨ha, hb⟩ := ih t0 t2 h2
        subst h1
        exact ⟨List.mem_cons_of_mem _ ha,
          fun v hv => List.mem_cons_of_mem _ (hb v hv)⟩
    | file m bb =>
      cases hf : findFold metas m with
      | some v =>
        by_cases hcmp : eqFold v.sha1 (sha bb)
        · simp only [extractLoop, hf, hcmp, if_pos] at h
          rcases cons_split h with ⟨h1, h2, h3⟩ | ⟨t0, h1, h2⟩
          · exact absurd h2 (by simp)
          · rcases cons_split h2 with ⟨g1, g2, g3⟩ | ⟨t0', g1, g2⟩
            · exact absurd g2 (by simp)
            · rcases cons_split g2 with ⟨k1, k2, k3⟩ | ⟨t0'', k1, k2⟩
              · injection k2 with e1 e2
                subst h1
                subst g1
                subst k1
                subst e1
                exact ⟨by simp, fun v' hv => by simp⟩
              · obtain ⟨ha, hb⟩ := ih t0'' t2 k2
                subst h1
                subst g1
                subst k1
                exact ⟨by simp [ha], fun v' hv => by simp [hb v' hv]⟩
        · simp only [extractLoop, hf, hcmp, if_neg, not_false_iff] at h
          rcases cons_split h with ⟨h1, h2, h3⟩ | ⟨t0, h1, h2⟩
          · exact absurd h2 (by simp)
          · exact absurd h2 (by simp)
      | none =>
        simp only [extractLoop, hf] at h
        rcases cons_split h with ⟨h1, h2, h3⟩ | ⟨t0, h1, h2⟩
        · exact absurd h2 (by simp)
        · rcases cons_split h2 with ⟨g1, g2, g3⟩ | ⟨t0', g1, g2⟩
          · injection g2 with e1 e2
            subst h1
            subst g1
            subst e1
            refine ⟨by simp, fun v' hv => ?_⟩
            rw [hf] at hv
            exact absurd hv (by simp)
          · obtain ⟨ha, hb⟩ := ih t0' t2 g2
            subst h1
            subst g1
            exact ⟨by simp [ha], fun v' hv => by simp [hb v' hv]⟩

/- ---------------- concrete instantiations for evaluation ---------------- -/

/-- A digest model for concrete runs: the decimal length of the input
(deterministic, and distinguishing the inputs used below, as SHA-1 does). -/
def shaLen (l : List Nat) : String := toString l.length

/-- A trivial instantiation of the external primitives for concrete runs:
identity compression, always-succeeding parsing and signing, content-length
digests. -/
def idCodecs : Codecs where
  sha1Hex := shaLen
  deflate := id
  inflate := some
  zipWrite := fun _ => []
  zipRead := fun _ => some []
  xmlEncode := fun _ => []
  xmlDecode := fun _ => [DecodeResult.eof]
  pemDecode := some
  pkcs7Parse := fun b => some ⟨b, true⟩
  sign := some

/-- Whether an outcome is an error return (as opposed to a value or a
panic). -/
def isErrorX {α : Type} : XOutcome α → Bool
  | XOutcome.error _ => true
  | _ => false

/- ---------------- C1 ---------------- -/

/-- C1 counterexample: extracting an archive entry that has no matching
manifest record (here: an empty manifest) writes the file although its hash
is never validated — the trace holds the write but no validation event, so
a file is written without its hash having been validated. -/
theorem c1_counterexample :
    extractLoop shaLen [] [ZEntry.file "f" [1]]
        = ([Event.hashComputed "f", Event.written "f" [1]], none) ∧
      Event.validated "f" ∉ (extractLoop shaLen [] [ZEntry.file "f" [1]]).1 := by
  constructor
  · decide
  · decide

/-- C1 (amended): in every extraction trace, a written file's digest was
computed beforehand, and — whenever any manifest record matches the file's
name case-insensitively — validated against that record beforehand; an
entry with no matching record is, however, written without validation. -/
theorem c1_write_after_validate_amended (sha : List Nat → String)
    (metas : List MetaStruct) (entries : List ZEntry)
    (t1 t2 : List Event) (n : String) (b : List Nat)
    (h : (extractLoop sha metas entries).1 = t1 ++ Event.written n b :: t2) :
    Event.hashComputed n ∈ t1 ∧
      (∀ v, findFold metas n = some v → Event.validated n ∈ t1) :=
  written_after_validate sha metas entries t1 t2 n b h

/-- Witness for C1: a concrete passing run in which the write of "f" is
preceded by its hashing and validation events. -/
theorem c1_write_after_validate_witness :
    Event.hashComputed "f" ∈ [Event.hashComputed "f", Event.validated "f"] ∧
      (∀ v, findFold [⟨"f", 1, 0, "1"⟩] "f" = some v →
        Event.validated "f" ∈ [Event.hashComputed "f", Event.validated "f"]) :=
  c1_write_after_validate_amended shaLen [⟨"f", 1, 0, "1"⟩] [ZEntry.file "f" [9]]
    [Event.hashComputed "f", Event.validated "f"] [] "f" [9] (by decide)

/- ---------------- C3 ---------------- -/

/-- C3 counterexample: the frame [1,0,0,0] declares a one-byte compressed
manifest but holds no bytes after the length prefix; readSZP's slice
arithmetic panics instead of failing with a FormatError. -/
theorem c3_counterexample :
    unframeM idCodecs [1, 0, 0, 0] = XOutcome.panic ∧
      isErrorX (unframeM idCodecs [1, 0, 0, 0]) = false := by
  constructor
  · decide
  · decide

/-- C3 (amended): when the declared length L overruns the buffer (or the
buffer is shorter than the 4-byte prefix itself) the frame parser panics
with an out-of-range slice rather than returning an error; a failing
inflation of the L-byte manifest segment is returned as an error. -/
theorem c3_unframe_errors_amended (c : Codecs) (data : List Nat) :
    (data.length < 4 + leUint32 (data.take 4) → unframeM c data = XOutcome.panic)
    ∧ (4 + leUint32 (data.take 4) ≤ data.length →
        c.inflate ((data.drop 4).take (leUint32 (data.take 4))) = none →
        unframeM c data = XOutcome.error "inflate error") := by
  constructor
  · intro hlt
    simp only [unframeM]
    split_ifs with h1
    · rfl
    · rfl
  · intro hge hinf
    simp only [unframeM]
    split_ifs with h1 h2
    · omega
    · omega
    · rw [hinf]

/-- idCodecs with an inflater that always fails (corrupt DEFLATE data). -/
def noInflate : Codecs := { idCodecs with inflate := fun _ => none }

/-- Witness for C3: a concrete oversized length prefix panics; a concrete
inflation failure is returned as an error. -/
theorem c3_unframe_errors_witness :
    unframeM idCodecs [2, 0, 0, 0, 7] = XOutcome.panic ∧
      unframeM noInflate [0, 0, 0, 0] = XOutcome.error "inflate error" := by
  constructor
  · exact (c3_unframe_errors_amended idCodecs [2, 0, 0, 0, 7]).1 (by decide)
  · exact (c3_unframe_errors_amended noInflate [0, 0, 0, 0]).2 (by decide) rfl

/- ---------------- C5 ---------------- -/

/-- C5 counterexample: the abort message begins with a capital "Hash",
not the "hash of <path> does not match" the claim states. -/
theorem c5_counterexample :
    (extractLoop shaLen [⟨"a.txt", 1, 0, "X"⟩] [ZEntry.file "a.txt" [5, 6]]).2
        = some "Hash of a.txt does not match" ∧
      "Hash of a.txt does not match" ≠ "hash of a.txt does not match" := by
  constructor
  · decide
  · decide

/-- C5 (amended): when the first record matching an entry's path
case-insensitively carries a different digest, extraction aborts with
"Hash of <path> does not match" (capital H) naming exactly that path, and
the mismatched file is never written. -/
theorem c5_integrity_abort_amended (sha : List Nat → String)
    (metas : List MetaStruct) (pre : List ZEntry)
    (n : String) (b : List Nat) (v : MetaStruct) (rest : List ZEntry)
    (hp : ∀ e ∈ pre, entryPasses sha metas e = true)
    (hf : findFold metas n = some v)
    (hbad : ¬ eqFold v.sha1 (sha b))
    (hfresh : ∀ bb, ZEntry.file n bb ∉ pre) :
    (extractLoop sha metas (pre ++ ZEntry.file n b :: rest)).2
        = some ("Hash of " ++ n ++ " does not match")
    ∧ ∀ bb, Event.written n bb ∉
        (extractLoop sha metas (pre ++ ZEntry.file n b :: rest)).1 := by
  have h := extractLoop_fail sha metas pre hp n b v hf hbad rest
  rw [h]
  constructor
  · rfl
  · intro bb hmem
    rcases List.mem_append.mp hmem with hm | hm
    · have h1 : (n, bb) ∈ writtenFiles (okTrace metas pre) :=
        mem_writtenFiles _ _ _ hm
      rw [writtenFiles_okTrace] at h1
      exact hfresh bb (mem_entryFilesZ _ _ _ h1)
    · exact absurd hm (by simp)

/-- Witness for C5: a two-entry archive whose second file mismatches its
record; the run aborts with the capitalised message. -/
theorem c5_integrity_abort_witness :
    (extractLoop shaLen [⟨"b.txt", 1, 0, "1"⟩, ⟨"a.txt", 1, 0, "X"⟩]
        ([ZEntry.file "b.txt" [9]] ++ ZEntry.file "a.txt" [5, 6] :: [])).2
      = some ("Hash of " ++ "a.txt" ++ " does not match") :=
  (c5_integrity_abort_amended shaLen
    [⟨"b.txt", 1, 0, "1"⟩, ⟨"a.txt", 1, 0, "X"⟩]
    [ZEntry.file "b.txt" [9]] "a.txt" [5, 6] ⟨"a.txt", 1, 0, "X"⟩ []
    (by decide) (by decide) (by decide)
    (by
      intro bb hb
      rcases List.mem_cons.mp hb with h | h
      · injection h with h1 h2
        exact absurd h1 (by decide)
      · simp at h)).1

/- ---------------- C10 ---------------- -/

/-- C10 counterexample: a garbage record between the well-formed records
and EOF is not treated as end-of-stream: the loop appends the decoder's
zero-valued record and yields two records, not one. -/
theorem c10_counterexample :
    decodeLoop [DecodeResult.ok ⟨"a", 1, 0, "h"⟩, DecodeResult.errp zeroMeta,
        DecodeResult.eof]
      ≠ [(⟨"a", 1, 0, "h"⟩ : MetaStruct)] := by decide

/-- C10 (amended): the decode loop never reports an error and terminates
only at io.EOF; a failed decode of a trailing garbage or partial record
appends the decoder's current record — zero-valued or partially filled —
and continues, so the result is the well-formed records plus one junk
record per failed decode attempt. -/
theorem c10_decode_tolerant_amended (vs : List MetaStruct) (w : MetaStruct)
    (rest : List DecodeResult) :
    decodeLoop (vs.map DecodeResult.ok ++ DecodeResult.errp w ::
        DecodeResult.eof :: rest) = vs ++ [w] := by
  rw [decodeLoop_ok_append]
  rfl

/- ---------------- C4 ---------------- -/

/-- idCodecs with a PEM decoder that strips the armor (drops one byte), so
the digest of the decoded envelope differs from the digest of the raw
container bytes. -/
def pemStrip : Codecs := { idCodecs with pemDecode := fun b => some (b.drop 1) }

/-- C4 counterexample: for the container bytes [7,7] the PEM-decoded
envelope is [7], whose digest ("1" in the length model) is the fingerprint
the claim prescribes; the signature is valid, yet verifySign rejects with
the trust error because the source hashes the raw PEM-encoded file bytes
([7,7], digest "2").  The claim-described verifier accepts the same
input. -/
theorem c4_counterexample :
    verifySignM pemStrip "1" [7, 7]
        = XOutcome.error "Hash of the certificate does not match the specified" ∧
      verifySignClaimC4 pemStrip "1" [7, 7] = XOutcome.ok [7, 7] := by
  constructor
  · decide
  · decide

/-- C4 (amended): the supplied fingerprint is compared, case-insensitively,
against SHA-1 of the raw PEM-encoded container bytes as read from disk; a
mismatch fails with the trust error before the signature check is consulted
(the outcome is the same whatever p7.Verify would return), and with a
matching fingerprint the outcome is exactly that of the signature check. -/
theorem c4_fingerprint_gate_amended (c : Codecs) (hash : String)
    (szp pbytes content : List Nat) (valid : Bool)
    (hpem : c.pemDecode szp = some pbytes)
    (hp7 : c.pkcs7Parse pbytes = some ⟨content, valid⟩)
    (hne : hash ≠ "") :
    (¬ eqFold (c.sha1Hex szp) hash →
      verifySignM c hash szp
        = XOutcome.error "Hash of the certificate does not match the specified")
    ∧ (eqFold (c.sha1Hex szp) hash →
      verifySignM c hash szp
        = if valid then XOutcome.ok szp
          else XOutcome.error "verification error") := by
  constructor
  · intro hmis
    simp [verifySignM, hpem, hp7, hne, hmis]
  · intro hok
    cases valid with
    | true => simp [verifySignM, hpem, hp7, hne, hok]
    | false => simp [verifySignM, hpem, hp7, hne, hok]

/-- Witness for C4: a wrong fingerprint is rejected with the trust error; a
correct fingerprint (digest of the raw bytes) lets verification succeed. -/
theorem c4_fingerprint_gate_witness :
    verifySignM idCodecs "9" [7, 7]
        = XOutcome.error "Hash of the certificate does not match the specified" ∧
      verifySignM idCodecs "2" [7, 7] = XOutcome.ok [7, 7] := by
  constructor
  · exact (c4_fingerprint_gate_amended idCodecs "9" [7, 7] [7, 7] [7, 7] true
      rfl rfl (by decide)).1 (by decide)
  · have h := (c4_fingerprint_gate_amended idCodecs "2" [7, 7] [7, 7] [7, 7] true
      rfl rfl (by decide)).2 (by decide)
    simpa using h

/- ---------------- C6 ---------------- -/

/-- A compressed manifest of exactly 2^32 bytes (under the identity
compressor of idCodecs). -/
def mBig : List Nat := List.replicate 4294967296 0

/-- C6 counterexample: with a compressed manifest of exactly 2^32 bytes the
uint32 length prefix truncates to 0, so unframe inflates an empty segment
and misparses the manifest bytes as the archive stream — the round trip
fails even though inflate inverts deflate on every input here. -/
theorem c6_counterexample :
    unframeM idCodecs (frameM idCodecs mBig []) ≠
      XOutcome.ok (mBig, ([] : List Nat)) := by
  have hlen : mBig.length = 4294967296 := by
    show (List.replicate 4294967296 (0 : Nat)).length = 4294967296
    rw [List.length_replicate]
  have hdata : frameM idCodecs mBig [] = [0, 0, 0, 0] ++ mBig := by
    show putUint32LE (mBig.length) ++ mBig ++ [] = [0, 0, 0, 0] ++ mBig
    rw [hlen, List.append_nil, (by decide : putUint32LE 4294967296 = [0, 0, 0, 0])]
  have ht : (([0, 0, 0, 0] : List Nat) ++ mBig).take 4 = [0, 0, 0, 0] :=
    List.take_left' rfl
  have hd : (([0, 0, 0, 0] : List Nat) ++ mBig).drop 4 = mBig :=
    List.drop_left' rfl
  have hl : (([0, 0, 0, 0] : List Nat) ++ mBig).length = 4 + 4294967296 := by
    rw [List.length_append, hlen]
    rfl
  have hres : unframeM idCodecs ([0, 0, 0, 0] ++ mBig) = XOutcome.ok ([], mBig) := by
    simp only [unframeM, ht, hd, hl, (by decide : leUint32 [0, 0, 0, 0] = 0)]
    rw [if_neg (by omega), if_neg (by omega)]
    simp [idCodecs, hd]
  intro h
  rw [hdata, hres] at h
  simp only [XOutcome.ok.injEq, Prod.mk.injEq] at h
  have h2 := congrArg List.length h.1
  rw [hlen] at h2
  simp at h2

/-- C6 (amended): for every manifest and archive byte sequence, unframing
the frame yields them back, provided DEFLATE inverts on the manifest and
the compressed manifest is shorter than 2^32 bytes (the length prefix is a
uint32). -/
theorem c6_roundtrip_amended (c : Codecs) (m z : List Nat)
    (hinf : c.inflate (c.deflate m) = some m)
    (hlen : (c.deflate m).length < 4294967296) :
    unframeM c (frameM c m z) = XOutcome.ok (m, z) :=
  unframe_frame c m z hinf hlen

/-- Witness for C6: a concrete two-byte manifest and one-byte archive
round-trip through frame and unframe. -/
theorem c6_roundtrip_witness :
    unframeM idCodecs (frameM idCodecs [1, 2] [3]) = XOutcome.ok ([1, 2], [3]) :=
  c6_roundtrip_amended idCodecs [1, 2] [3] rfl (by decide)

/- ---------------- C7 ---------------- -/

/-- C7: at the failing input — a subdirectory holding an unreadable file —
the recursive addData call's error is discarded (szip.go line 93): addData
reports no error, and the packaging pipeline proceeds to produce a signed
container whose manifest omits the file. -/
theorem c7_nested_io_error_ignored :
    (addList '/' shaLen "" [FSTree.dir "a" [FSTree.file "f.txt" none 0]]
        ⟨[], []⟩)
      = (⟨[ZEntry.dir "a/"], []⟩, none) ∧
    packBytes idCodecs '/' [FSTree.dir "a" [FSTree.file "f.txt" none 0]]
      = XOutcome.ok [0, 0, 0, 0] := by
  constructor
  · simp only [addList]
    decide
  · simp only [packBytes, addList]
    decide

/- ---------------- C8 ---------------- -/

lemma diskRead_set_same (d : Disk) (n : String) (v : List Nat) :
    diskRead (diskSet d n v) n = some v := by
  simp [diskRead, diskSet]

lemma find_filter (d : Disk) (n m : String) (hne : m ≠ n) :
    List.find? (fun p => p.1 = m) (d.filter (fun p => ¬ (p.1 = n)))
      = List.find? (fun p => p.1 = m) d := by
  induction d with
  | nil => rfl
  | cons a t ih =>
    by_cases ha : a.1 = n
    · have ham : ¬ a.1 = m := by
        intro hh
        exact hne (hh ▸ ha)
      rw [List.filter_cons, if_neg (by simp [ha])]
      rw [List.find?_cons_of_neg _ (by simp [ham])]
      exact ih
    · rw [List.filter_cons, if_pos (by simp [ha])]
      by_cases ham : a.1 = m
      · rw [List.find?_cons_of_pos _ (by simp [ham]),
          List.find?_cons_of_pos _ (by simp [ham])]
      · rw [List.find?_cons_of_neg _ (by simp [ham]),
          List.find?_cons_of_neg _ (by simp [ham])]
        exact ih

lemma diskRead_remove_other (d : Disk) (n m : String) (h : m ≠ n) :
    diskRead (diskRemove d n) m = diskRead d m := by
  simp only [diskRead, diskRemove]
  rw [find_filter d n m h]

lemma diskRead_remove_same (d : Disk) (n : String) :
    diskRead (diskRemove d n) n = none := by
  simp only [diskRead, diskRemove]
  induction d with
  | nil => rfl
  | cons a t ih =>
    by_cases ha : a.1 = n
    · rw [List.filter_cons, if_neg (by simp [ha])]
      exact ih
    · rw [List.filter_cons, if_pos (by simp [ha]),
        List.find?_cons_of_neg _ (by simp [ha])]
      exact ih

lemma szp_ne_zip (name : String) : name ++ ".szp" ≠ name ++ ".zip" := by
  intro h
  have h2 : (name ++ ".szp").data = (name ++ ".zip").data := congrArg String.data h
  rw [String.data_append, String.data_append] at h2
  have h3 := List.append_cancel_left h2
  exact absurd h3 (by decide)

/-- idCodecs with a signer that always fails (bad certificate or key). -/
def noSign : Codecs := { idCodecs with sign := fun _ => none }

/-- C8 counterexample: with a failing signer, createSZP leaves an empty
file at the final container name on disk — the container was created at
its final name before signing; there is no temporary-name promotion. -/
theorem c8_counterexample :
    createSZPM noSign "szip" [] [("szip.zip", [9])]
        = ([("szip.szp", []), ("szip.zip", [9])], some "signing error") ∧
      diskRead [("szip.szp", []), ("szip.zip", [9])] "szip.szp" = some [] := by
  constructor
  · decide
  · decide

/-- C8 (amended): createSZP creates the container at its final name before
signing, so a signing failure returns an error leaving a zero-byte file at
that final name; on success the final name holds the complete envelope in
one write and the scratch zip is removed. -/
theorem c8_no_promotion_amended (c : Codecs) (name : String)
    (metaBytes : List Nat) (disk : Disk) (z : List Nat)
    (hz : diskRead disk (name ++ ".zip") = some z) :
    (c.sign (putUint32LE (c.deflate metaBytes).length ++ c.deflate metaBytes ++ z)
        = none →
      (createSZPM c name metaBytes disk).2 = some "signing error" ∧
        diskRead (createSZPM c name metaBytes disk).1 (name ++ ".szp") = some [])
    ∧ ∀ env,
      c.sign (putUint32LE (c.deflate metaBytes).length ++ c.deflate metaBytes ++ z)
          = some env →
      (createSZPM c name metaBytes disk).2 = none ∧
        diskRead (createSZPM c name metaBytes disk).1 (name ++ ".szp") = some env ∧
        diskRead (createSZPM c name metaBytes disk).1 (name ++ ".zip") = none := by
  constructor
  · intro hs
    simp only [createSZPM, hz, hs]
    exact ⟨trivial, diskRead_set_same _ _ _⟩
  · intro env hs
    simp only [createSZPM, hz, hs]
    refine ⟨trivial, ?_, ?_⟩
    · rw [diskRead_remove_other _ _ _ (szp_ne_zip name)]
      exact diskRead_set_same _ _ _
    · exact diskRead_remove_same _ _

/-- Witness for C8: the failing-signer run leaves the empty container at
the final name; the succeeding run stores the envelope and removes the
scratch zip. -/
theorem c8_no_promotion_witness :
    ((createSZPM noSign "szip" [] [("szip.zip", [9])]).2 = some "signing error" ∧
      diskRead (createSZPM noSign "szip" [] [("szip.zip", [9])]).1
        ("szip" ++ ".szp") = some []) ∧
    ((createSZPM idCodecs "szip" [] [("szip.zip", [9])]).2 = none ∧
      diskRead (createSZPM idCodecs "szip" [] [("szip.zip", [9])]).1
          ("szip" ++ ".szp") = some [0, 0, 0, 0, 9] ∧
      diskRead (createSZPM idCodecs "szip" [] [("szip.zip", [9])]).1
          ("szip" ++ ".zip") = none) :=
  ⟨(c8_no_promotion_amended noSign "szip" [] [("szip.zip", [9])] [9] rfl).1 rfl,
    (c8_no_promotion_amended idCodecs "szip" [] [("szip.zip", [9])] [9] rfl).2
      [0, 0, 0, 0, 9] rfl⟩

/- ---------------- C9 ---------------- -/

/-- C9 counterexample: on a backslash-separator host, the manifest path for
the nested tree a/b/c.txt is "a\b\c.txt": the file path comes from
filepath.Join with the host separator and is never ToSlash-normalised. -/
theorem c9_counterexample :
    ((addList '\\' shaLen ""
        [FSTree.dir "a" [FSTree.dir "b" [FSTree.file "c.txt" (some [1]) 0]]]
        ⟨[], []⟩).1.metas.map (fun v => v.name)) = ["a\\b\\c.txt"] ∧
      ("a\\b\\c.txt" : String) ≠ "a/b/c.txt" := by
  constructor
  · simp only [addList]
    decide
  · decide

/-- C9 (amended): forward-slash manifest paths are guaranteed only on a
host whose path separator is '/': there the tree a/b/c.txt yields exactly
the manifest path "a/b/c.txt" (directory entry names are ToSlash-
normalised, file paths are not). -/
theorem c9_slash_paths_amended (sha : List Nat → String) (content : List Nat)
    (mtime : Nat) :
    ((addList '/' sha ""
        [FSTree.dir "a" [FSTree.dir "b" [FSTree.file "c.txt" (some content) mtime]]]
        ⟨[], []⟩).1.metas.map (fun v => v.name)) = ["a/b/c.txt"] := by
  simp only [addList]
  rfl

/- ---------------- C2 ---------------- -/

/-- The manifest records the packer derives from a tree (root call). -/
def treeMetas (c : Codecs) (sep : Char) (tree : List FSTree) : List MetaStruct :=
  (specFiles sep "" tree).map (mkMeta c.sha1Hex)

/-- The zip entries the packer derives from a tree (root call). -/
def treeZips (sep : Char) (tree : List FSTree) : List ZEntry :=
  zipSpec sep "" tree

/-- The (relative path, bytes) pairs of a tree's files, in traversal
order. -/
def treeFilesR (sep : Char) (tree : List FSTree) : List (String × List Nat) :=
  (specFiles sep "" tree).map (fun t => (t.1, t.2.1))

/-- A digest model distinguishing the concrete contents used below: the sum
of the bytes. -/
def shaSum (l : List Nat) : String := toString (l.foldr (fun a b => a + b) 0)

/-- A tree with two sibling files whose names differ only by case. -/
def cexTree : List FSTree :=
  [FSTree.file "A" (some [0]) 0, FSTree.file "a" (some [1]) 0]

/-- Codecs for the C2 counterexample: the zip and manifest codecs reproduce
exactly what packing cexTree serializes. -/
def c2Codecs : Codecs :=
  { idCodecs with
    sha1Hex := shaSum,
    zipRead := fun _ => some [ZEntry.file "A" [0], ZEntry.file "a" [1]],
    xmlDecode := fun _ => [DecodeResult.ok ⟨"A", 1, 0, "0"⟩,
      DecodeResult.ok ⟨"a", 1, 0, "1"⟩, DecodeResult.eof] }

/-- C2 counterexample: packing the tree {A ↦ [0], a ↦ [1]} succeeds, but
extracting the container aborts with an integrity error on "a" — its
case-insensitive manifest lookup finds the record of "A" first — so the
extraction does not reproduce the tree. -/
theorem c2_counterexample :
    packBytes c2Codecs '/' cexTree = XOutcome.ok [0, 0, 0, 0] ∧
      extractM c2Codecs "" [0, 0, 0, 0]
        = XResult.run
            [Event.hashComputed "A", Event.validated "A", Event.written "A" [0],
              Event.hashComputed "a"]
            (some "Hash of a does not match") := by
  constructor
  · simp only [packBytes, addList, cexTree]
    decide
  · decide

/-- C2 (amended): for a tree whose files are all readable and whose file
paths are pairwise distinct under case-insensitive comparison, and whose
compressed manifest is shorter than 2^32 bytes, packing succeeds and
extracting the signed container (with the signature verifying, i.e. the
same certificate) writes back exactly the tree's files: the same relative
paths, the same bytes, the same count, plus a directory per directory
entry.  The hypotheses on the codec parameters are the inversion laws the
external zip/DEFLATE/XML/PKCS#7 libraries provide. -/
theorem c2_roundtrip_amended (c : Codecs) (sep : Char) (tree : List FSTree)
    (env pb : List Nat)
    (hread : readableL tree = true)
    (hdist : ((specFiles sep "" tree).map (fun t => t.1)).Pairwise
      (fun a b => ¬ eqFold a b))
    (hsign : c.sign (frameM c (c.xmlEncode (treeMetas c sep tree))
        (c.zipWrite (treeZips sep tree))) = some env)
    (hpem : c.pemDecode env = some pb)
    (hp7 : c.pkcs7Parse pb
      = some ⟨frameM c (c.xmlEncode (treeMetas c sep tree))
          (c.zipWrite (treeZips sep tree)), true⟩)
    (hinf : c.inflate (c.deflate (c.xmlEncode (treeMetas c sep tree)))
      = some (c.xmlEncode (treeMetas c sep tree)))
    (hlen : (c.deflate (c.xmlEncode (treeMetas c sep tree))).length < 4294967296)
    (hzip : c.zipRead (c.zipWrite (treeZips sep tree)) = some (treeZips sep tree))
    (hxml : c.xmlDecode (c.xmlEncode (treeMetas c sep tree))
      = (treeMetas c sep tree).map DecodeResult.ok ++ [DecodeResult.eof]) :
    packBytes c sep tree = XOutcome.ok env ∧
      extractM c "" env
        = XResult.run (okTrace (treeMetas c sep tree) (treeZips sep tree)) none ∧
      writtenFiles (okTrace (treeMetas c sep tree) (treeZips sep tree))
        = treeFilesR sep tree := by
  have haddr := addList_ok sep c.sha1Hex "" tree ⟨[], []⟩ hread
  have hacc : (addList sep c.sha1Hex "" tree ⟨[], []⟩)
      = (⟨treeZips sep tree, treeMetas c sep tree⟩, none) := by
    rw [haddr]
    simp only [treeZips, treeMetas, List.nil_append]
  have hpack : packBytes c sep tree = XOutcome.ok env := by
    simp only [packBytes, hacc, hsign]
  have hverify : verifySignM c "" env = XOutcome.ok env := by
    simp only [verifySignM, hpem, hp7]
    simp
  have hreadszp : readSZPM c env
      = XOutcome.ok (c.xmlEncode (treeMetas c sep tree),
          c.zipWrite (treeZips sep tree)) := by
    simp only [readSZPM, hpem, hp7]
    exact unframe_frame c _ _ hinf hlen
  have hpasses : ∀ e ∈ treeZips sep tree,
      entryPasses c.sha1Hex (treeMetas c sep tree) e = true := by
    intro e he
    exact zipSpec_entryPasses sep c.sha1Hex "" tree hdist e he
  have hloop := extractLoop_ok c.sha1Hex (treeMetas c sep tree)
    (treeZips sep tree) hpasses
  have hextract : extractM c "" env
      = XResult.run (okTrace (treeMetas c sep tree) (treeZips sep tree)) none := by
    simp only [extractM, hverify, hreadszp, hzip, hxml, decodeLoop_clean, hloop]
  have hwritten : writtenFiles (okTrace (treeMetas c sep tree) (treeZips sep tree))
      = treeFilesR sep tree := by
    simp only [treeZips, treeFilesR]
    rw [writtenFiles_okTrace, entryFilesZ_zipSpec]
  exact ⟨hpack, hextract, hwritten⟩

/-- A concrete one-directory, one-file tree for the C2 witness. -/
def wTree : List FSTree := [FSTree.dir "d" [FSTree.file "x.txt" (some [5]) 3]]

/-- Codecs for the C2 witness: the zip and manifest codecs invert exactly
on what packing wTree serializes. -/
def wCodecs : Codecs :=
  { idCodecs with
    sha1Hex := shaSum,
    zipRead := fun _ => some (zipSpec '/' "" wTree),
    xmlDecode := fun _ =>
      ((specFiles '/' "" wTree).map (mkMeta shaSum)).map DecodeResult.ok
        ++ [DecodeResult.eof] }

/-- Witness for C2: the concrete tree d/x.txt round-trips — packing yields
a container whose extraction runs to completion and writes back exactly the
tree's files. -/
theorem c2_roundtrip_witness :
    packBytes wCodecs '/' wTree = XOutcome.ok [0, 0, 0, 0] ∧
      extractM wCodecs "" [0, 0, 0, 0]
        = XResult.run (okTrace (treeMetas wCodecs '/' wTree)
            (treeZips '/' wTree)) none ∧
      writtenFiles (okTrace (treeMetas wCodecs '/' wTree) (treeZips '/' wTree))
        = treeFilesR '/' wTree :=
  c2_roundtrip_amended wCodecs '/' wTree [0, 0, 0, 0] [0, 0, 0, 0]
    (by simp [readableL, wTree]) (by simp [specFiles, wTree]) rfl rfl rfl rfl
    (by decide) rfl rfl
